import Mathlib

/-!
Verification of the replicated bulletin-board server (`server.py` and the
per-mode variants under `Sequential/`, `ryw/`, `quorum/`).

The Python `Server` class is shallowly embedded: its mutable fields become a
`ServerState` record, each message handler becomes a pure function from a
state (plus the message's fields) to a new state and a response, and network
interaction (`send_message`) is modelled by an oracle function from peer
address to the optional response that peer returns (`none` standing for an
exception or a non-matching response type).
-/

namespace BBS

/-- A server address, `(host, port)` as in the Python tuples. -/
abbrev Addr := String × Nat

/-- The `Article` class of `server.py`: `client_id` and `write_counter`
default to `None` and are only populated in Read-Your-Writes mode. -/
structure Article where
  id : Nat
  parent_id : Option Nat
  title : String
  content : String
  client_id : Option String
  write_counter : Option Nat
deriving DecidableEq, Repr

/-- `Article(article_id, parent_id, title, content)` with the two RYW fields
left at their `None` defaults. -/
def mkArticle (article_id : Nat) (parent_id : Option Nat) (title content : String) : Article :=
  ⟨article_id, parent_id, title, content, none, none⟩

/-- An article as it travels in a Read-Your-Writes wire message
(`new_article`, `new_articles`, `send_missing_articles`): all six fields are
present, `client_id` and `write_counter` as actual values. -/
structure RArticle where
  id : Nat
  parent_id : Option Nat
  title : String
  content : String
  client_id : String
  write_counter : Nat
deriving DecidableEq, Repr

/-- Storing a received RYW wire article as an `Article` object. -/
def RArticle.toArticle (a : RArticle) : Article :=
  ⟨a.id, a.parent_id, a.title, a.content, some a.client_id, some a.write_counter⟩

/-- The `{'id':…,'parent_id':…,'title':…}` dictionaries of an
`articles_list` response. -/
structure Summary where
  id : Nat
  parent_id : Option Nat
  title : String
deriving DecidableEq, Repr

/-- The `{'id':…,'parent_id':…,'title':…,'content':…}` dictionaries of an
`article_content` response or a `get_articles` reply item. -/
structure AView where
  id : Nat
  parent_id : Option Nat
  title : String
  content : String
deriving DecidableEq, Repr

def Article.toView (a : Article) : AView := ⟨a.id, a.parent_id, a.title, a.content⟩

def Article.toSummary (a : Article) : Summary := ⟨a.id, a.parent_id, a.title⟩

/-- The response dictionaries the handlers produce (discriminated by their
`'type'` field). -/
inductive Resp where
  | post_success (article_id : Nat)
  | error (message : String)
  | article_ack (article_id : Nat)
  | write_ack
  | articles_list (articles : List Summary)
  | article_content (article : AView)
  | connect_ack
  | ack
  | next_article_id (article_id : Nat)
deriving DecidableEq, Repr

/-- The three values of `self.consistency_model`. -/
inductive Mode where
  | sequential
  | read_your_writes
  | quorum
deriving DecidableEq, Repr

/-- The mutable per-server fields of the Python `Server` object that the
handlers read or write (socket and lock omitted; the lock serialises the
handlers, which is what lets us treat each handler as one atomic step). -/
structure ServerState where
  next_article_id : Nat
  articles : List Article
  client_write_counters : List (String × Nat)
  server_addresses : List Addr
  NR : Nat
  NW : Nat
deriving DecidableEq, Repr

/-- `self.client_write_counters.get(client_id, 0)`: dictionary lookup with
default `0`. -/
def ctrGet (m : List (String × Nat)) (c : String) : Nat :=
  match m.find? (fun p => p.1 == c) with
  | some p => p.2
  | none => 0

/-- `self.client_write_counters[client_id] = v`: dictionary assignment
(replace the entry if the key is present, else append it). -/
def ctrSet (m : List (String × Nat)) (c : String) (v : Nat) : List (String × Nat) :=
  if m.any (fun p => p.1 == c) then
    m.map (fun p => if p.1 == c then (c, v) else p)
  else
    m ++ [(c, v)]

/-- The ids present in a store, in store order. -/
def storeIds (l : List Article) : List Nat := l.map Article.id

/-! ### Sequential consistency handlers (`server.py` lines 127–191) -/

/-- `handle_post_article_sequential`, coordinator branch: allocate the next
id, append the article, reply `post_success`.  (The `new_article` fan-out to
peers is fire-and-forget and does not touch local state.) -/
def handle_post_article_sequential_coord (st : ServerState) (title content : String) :
    ServerState × Resp :=
  let article_id := st.next_article_id
  let article := mkArticle article_id none title content
  ({ st with next_article_id := st.next_article_id + 1,
             articles := st.articles ++ [article] },
   .post_success article_id)

/-- `handle_reply_article_sequential`, coordinator branch: same as a post but
the client-supplied `parent_id` is stored; no validation of the parent. -/
def handle_reply_article_sequential_coord (st : ServerState) (parent_id : Option Nat)
    (title content : String) : ServerState × Resp :=
  let article_id := st.next_article_id
  let article := mkArticle article_id parent_id title content
  ({ st with next_article_id := st.next_article_id + 1,
             articles := st.articles ++ [article] },
   .post_success article_id)

/-- `handle_new_article_sequential`: a peer receiving the coordinator's
`new_article` broadcast appends unconditionally and replies `article_ack`. -/
def handle_new_article_sequential (st : ServerState) (a : AView) : ServerState × Resp :=
  let article := mkArticle a.id a.parent_id a.title a.content
  ({ st with articles := st.articles ++ [article] }, .article_ack article.id)

/-- `handle_read_article_content_sequential`: linear search for the first
article with the requested id. -/
def handle_read_article_content_sequential (st : ServerState) (article_id : Nat) : Resp :=
  match st.articles.find? (fun a => a.id == article_id) with
  | some a => .article_content a.toView
  | none => .error "Article not found"

/-! ### Read-Your-Writes handlers (`server.py` lines 195–350) -/

/-- `get_next_article_id`: the coordinator takes and bumps its own counter;
a non-coordinator asks the coordinator over the network (`alloc` is the id
the coordinator RPC produced, `none` when the RPC failed or returned an
error). -/
def get_next_article_id (st : ServerState) (is_coordinator : Bool) (alloc : Option Nat) :
    ServerState × Option Nat :=
  if is_coordinator then
    ({ st with next_article_id := st.next_article_id + 1 }, some st.next_article_id)
  else
    (st, alloc)

/-- `handle_post_article_read_your_writes`: obtain an id; on failure reply
the error and stop; on success append the tagged article and overwrite the
client's session counter with the message's `write_counter`. -/
def handle_post_article_read_your_writes (st : ServerState) (is_coordinator : Bool)
    (alloc : Option Nat) (client_id : String) (write_counter : Nat)
    (title content : String) : ServerState × Resp :=
  let (st1, id?) := get_next_article_id st is_coordinator alloc
  match id? with
  | none => (st1, .error "Failed to get article ID from coordinator")
  | some article_id =>
    let article : Article := ⟨article_id, none, title, content, some client_id, some write_counter⟩
    ({ st1 with articles := st1.articles ++ [article],
                client_write_counters := ctrSet st1.client_write_counters client_id write_counter },
     .post_success article_id)

/-- `handle_reply_article_read_your_writes`: as the post handler, with the
client-supplied `parent_id` stored unvalidated. -/
def handle_reply_article_read_your_writes (st : ServerState) (is_coordinator : Bool)
    (alloc : Option Nat) (client_id : String) (write_counter : Nat) (parent_id : Option Nat)
    (title content : String) : ServerState × Resp :=
  let (st1, id?) := get_next_article_id st is_coordinator alloc
  match id? with
  | none => (st1, .error "Failed to get article ID from coordinator")
  | some article_id =>
    let article : Article :=
      ⟨article_id, parent_id, title, content, some client_id, some write_counter⟩
    ({ st1 with articles := st1.articles ++ [article],
                client_write_counters := ctrSet st1.client_write_counters client_id write_counter },
     .post_success article_id)

/-- `handle_new_article_read_your_writes`: append the propagated article
unconditionally and raise the session counter to
`max(current, write_counter)`. -/
def handle_new_article_read_your_writes (st : ServerState) (a : RArticle) :
    ServerState × Resp :=
  ({ st with articles := st.articles ++ [a.toArticle],
             client_write_counters :=
               ctrSet st.client_write_counters a.client_id
                 (max (ctrGet st.client_write_counters a.client_id) a.write_counter) },
   .article_ack a.id)

/-- One iteration of the `handle_new_articles` loop: skip the article if its
id is already held, else append it and raise the session counter to
`max(current, write_counter)`. -/
def newArticlesStep (st : ServerState) (a : RArticle) : ServerState :=
  if st.articles.any (fun b => b.id == a.id) then st
  else
    { st with articles := st.articles ++ [a.toArticle],
              client_write_counters :=
                ctrSet st.client_write_counters a.client_id
                  (max (ctrGet st.client_write_counters a.client_id) a.write_counter) }

/-- `handle_new_articles`: fold the per-article step over the bulk
propagation payload and reply `ack`. -/
def handle_new_articles (st : ServerState) (articles : List RArticle) : ServerState × Resp :=
  (articles.foldl newArticlesStep st, .ack)

/-- The inner append loop of `get_missing_articles` for one peer's
`send_missing_articles` payload: every received article is appended with no
presence check, and the session counter is raised with `max`. -/
def missingAppend (st : ServerState) (arts : List RArticle) : ServerState :=
  arts.foldl
    (fun s a =>
      { s with articles := s.articles ++ [a.toArticle],
               client_write_counters :=
                 ctrSet s.client_write_counters a.client_id
                   (max (ctrGet s.client_write_counters a.client_id) a.write_counter) })
    st

/-- `get_missing_articles`: ask every other server for the client's missing
writes and append whatever comes back.  `net addr` is the list of articles
in that peer's `send_missing_articles` reply (`none` on failure). -/
def get_missing_articles (st : ServerState) (selfAddr : Addr)
    (net : Addr → Option (List RArticle)) : ServerState :=
  st.server_addresses.foldl
    (fun s addr =>
      if addr == selfAddr then s
      else
        match net addr with
        | some arts => missingAppend s arts
        | none => s)
    st

/-- `handle_client_connect`: compute the gap `[latest+1 .. write_counter]`,
fetch it from peers when non-empty, and acknowledge. -/
def handle_client_connect (st : ServerState) (selfAddr : Addr)
    (net : Addr → Option (List RArticle)) (client_id : String) (write_counter : Nat) :
    ServerState × Resp :=
  let latest := ctrGet st.client_write_counters client_id
  let missing : List Nat :=
    if latest < write_counter then List.range' (latest + 1) (write_counter - latest) else []
  if missing.isEmpty then (st, .connect_ack)
  else (get_missing_articles st selfAddr net, .connect_ack)

/-- The `client_connect` arm of `handle_message` (`server.py` lines 76–80):
only Read-Your-Writes mode runs the session logic; the other two modes
acknowledge immediately. -/
def dispatch_client_connect (mode : Mode) (st : ServerState) (selfAddr : Addr)
    (net : Addr → Option (List RArticle)) (client_id : String) (write_counter : Nat) :
    ServerState × Resp :=
  match mode with
  | .read_your_writes => handle_client_connect st selfAddr net client_id write_counter
  | _ => (st, .connect_ack)

/-! ### Quorum consistency handlers (`server.py` lines 354–518,
`quorum/server.py` lines 85–241) -/

/-- `handle_write_article`: a quorum member receiving `write_article`
appends unconditionally and replies `write_ack`. -/
def handle_write_article (st : ServerState) (a : AView) : ServerState × Resp :=
  let article := mkArticle a.id a.parent_id a.title a.content
  ({ st with articles := st.articles ++ [article] }, .write_ack)

/-- One iteration of the quorum-write fan-out loop: a self address appends
locally and counts as an acknowledgment; a peer counts only when its reply
is `write_ack` (`net addr = none` models an exception). -/
def quorumWriteStep (selfAddr : Addr) (net : Addr → Option Resp) (article : Article)
    (acc : ServerState × List Addr) (addr : Addr) : ServerState × List Addr :=
  if addr == selfAddr then
    ({ acc.1 with articles := acc.1.articles ++ [article] }, acc.2 ++ [addr])
  else if net addr = some Resp.write_ack then (acc.1, acc.2 ++ [addr])
  else acc

/-- `handle_post_article_quorum`, coordinator branch: allocate an id, fan
the `write_article` out to the chosen quorum, and answer by comparing the
number of acknowledgments with `NW`. -/
def handle_post_article_quorum_coord (st : ServerState) (selfAddr : Addr)
    (write_quorum : List Addr) (net : Addr → Option Resp) (title content : String) :
    ServerState × Resp :=
  let article_id := st.next_article_id
  let st1 := { st with next_article_id := st.next_article_id + 1 }
  let article := mkArticle article_id none title content
  let res := write_quorum.foldl (quorumWriteStep selfAddr net article) (st1, [])
  if st.NW ≤ res.2.length then (res.1, .post_success article_id)
  else (res.1, .error "Failed to write to quorum")

/-- `handle_reply_article_quorum`, coordinator branch: identical to the post
fan-out with the client's `parent_id` stored unvalidated. -/
def handle_reply_article_quorum_coord (st : ServerState) (selfAddr : Addr)
    (write_quorum : List Addr) (net : Addr → Option Resp) (parent_id : Option Nat)
    (title content : String) : ServerState × Resp :=
  let article_id := st.next_article_id
  let st1 := { st with next_article_id := st.next_article_id + 1 }
  let article := mkArticle article_id parent_id title content
  let res := write_quorum.foldl (quorumWriteStep selfAddr net article) (st1, [])
  if st.NW ≤ res.2.length then (res.1, .post_success article_id)
  else (res.1, .error "Failed to write to quorum")

/-- `articles_dict[k] = v` on a Python (insertion-ordered) dict: replace in
place when the key exists, else append. -/
def dictInsert (d : List (Nat × Article)) (k : Nat) (v : Article) : List (Nat × Article) :=
  if d.any (fun p => p.1 == k) then d.map (fun p => if p.1 == k then (k, v) else p)
  else d ++ [(k, v)]

/-- `if k not in articles_dict: articles_dict[k] = v`. -/
def dictInsertIfAbsent (d : List (Nat × Article)) (k : Nat) (v : Article) :
    List (Nat × Article) :=
  if d.any (fun p => p.1 == k) then d else d ++ [(k, v)]

/-- One iteration of the read-quorum collection loop: the local store is
dumped with plain dict assignment (overwriting earlier entries), a peer's
`get_articles` reply is merged keeping the first occurrence of each id. -/
def readQuorumVisit (selfAddr : Addr) (store : List Article)
    (net : Addr → Option (List AView)) (d : List (Nat × Article)) (addr : Addr) :
    List (Nat × Article) :=
  if addr == selfAddr then
    store.foldl (fun d a => dictInsert d a.id a) d
  else
    match net addr with
    | some arts =>
      arts.foldl (fun d v => dictInsertIfAbsent d v.id (mkArticle v.id v.parent_id v.title v.content)) d
    | none => d

/-- Insertion into a list kept in ascending id order. -/
def insertByID (x : Summary) : List Summary → List Summary
  | [] => [x]
  | y :: ys => if x.id ≤ y.id then x :: y :: ys else y :: insertByID x ys

/-- `articles_list.sort(key=lambda x: x['id'])`. -/
def sortByID (l : List Summary) : List Summary := l.foldr insertByID []

/-- `handle_read_articles_quorum`: merge the stores of the visited read
quorum into `articles_dict`, project to summaries, sort by id. -/
def handle_read_articles_quorum (st : ServerState) (selfAddr : Addr)
    (net : Addr → Option (List AView)) (read_quorum : List Addr) : Resp :=
  let d := read_quorum.foldl (readQuorumVisit selfAddr st.articles net) []
  .articles_list (sortByID (d.map (fun p => ⟨p.2.id, p.2.parent_id, p.2.title⟩)))

/-- The core of `random.sample(pool, k)`: each round draws an index into the
remaining pool (the choice stream `rs` supplies one number per round, used
modulo the current pool size) and removes the chosen element. -/
def sampleAux : List Nat → Nat → List Addr → List Addr
  | _, 0, _ => []
  | _, _ + 1, [] => []
  | rs, k + 1, a :: pool =>
    let i := rs.headD 0 % (a :: pool).length
    (a :: pool).getD i a :: sampleAux rs.tail k ((a :: pool).eraseIdx i)

/-- `select_quorum` of the combined `server.py`:
`random.sample(servers, min(quorum_size, len(servers)))`. -/
def select_quorum (st : ServerState) (rs : List Nat) (quorum_size : Nat) : List Addr :=
  sampleAux rs (min quorum_size st.server_addresses.length) st.server_addresses

/-! ### Specification-side definitions

These follow the spec's words, to be compared with the handler
definitions above. -/

/-- Modelled from the spec: "The receiver appends any article whose `id` it
does not yet hold" — the sublist of the payload whose ids are fresh with
respect to the ids already seen, threading the seen set left to right. -/
def freshSelect (seen : List Nat) : List RArticle → List RArticle
  | [] => []
  | a :: rest =>
    if seen.contains a.id then freshSelect seen rest
    else a :: freshSelect (seen ++ [a.id]) rest

/-- Modelled from the spec: "updates the corresponding session counter to
`max(current, write_counter)`" — apply that update once per listed
article. -/
def applySessionMax (m : List (String × Nat)) : List RArticle → List (String × Nat)
  | [] => m
  | a :: rest => applySessionMax (ctrSet m a.client_id (max (ctrGet m a.client_id) a.write_counter)) rest

/-- The store a read-quorum visit to `addr` contributes: the local store for
the receiving server itself, a peer's `get_articles` reply otherwise. -/
def visitStore (selfAddr : Addr) (store : List Article) (net : Addr → Option (List AView))
    (addr : Addr) : List Article :=
  if addr == selfAddr then store
  else ((net addr).getD []).map (fun v => mkArticle v.id v.parent_id v.title v.content)

/-- Modelled from the spec: "merges by `id`, taking the first occurrence" —
first-occurrence merge of the concatenated quorum stores in visit order. -/
def specMergeFirst (stores : List (List Article)) : List (Nat × Article) :=
  stores.flatten.foldl (fun d a => dictInsertIfAbsent d a.id a) []

/-- The spec's description of the quorum list read: first-occurrence merge
of the visited stores, projected to summaries and sorted ascending by id. -/
def spec_read_articles_quorum (st : ServerState) (selfAddr : Addr)
    (net : Addr → Option (List AView)) (read_quorum : List Addr) : Resp :=
  let d := specMergeFirst (read_quorum.map (visitStore selfAddr st.articles net))
  .articles_list (sortByID (d.map (fun p => ⟨p.2.id, p.2.parent_id, p.2.title⟩)))

/-- A choice stream in canonical form for drawing from a pool of `n`
elements: the `i`-th draw is an in-range index into the `n - i` remaining
elements. -/
def CanonicalChoices : List Nat → Nat → Prop
  | [], _ => True
  | r :: rs, n => r < n ∧ CanonicalChoices rs (n - 1)

/-- The summary list carried by an `articles_list` response (empty for any
other response). -/
def respArticles : Resp → List Summary
  | .articles_list l => l
  | _ => []

/-- The tree invariant of spec §3: every reply's parent id is strictly below
its own id. -/
def ParentLT (l : List Article) : Prop :=
  ∀ a ∈ l, ∀ p, a.parent_id = some p → p < a.id

/-- Membership of a key in a Python-dict model. -/
def keyMem (d : List (Nat × Article)) (k : Nat) : Bool :=
  d.any (fun p => p.1 == k)

/-- The predicate under which a fan-out destination contributes an
acknowledgment: it is the coordinator itself (local append) or its reply is
`write_ack`. -/
def ackPred (selfAddr : Addr) (net : Addr → Option Resp) (addr : Addr) : Bool :=
  addr == selfAddr || decide (net addr = some Resp.write_ack)

/-! ## Lemmas about the embedded dictionaries and folds -/

theorem ctrGet_nil (c : String) : ctrGet [] c = 0 := rfl

theorem find_setMap_self (m : List (String × Nat)) (c : String) (v : Nat)
    (h : m.any (fun p => p.1 == c) = true) :
    (m.map (fun p => if p.1 == c then (c, v) else p)).find? (fun p => p.1 == c)
      = some (c, v) := by
  induction m with
  | nil => simp at h
  | cons x rest ih =>
    by_cases hx : x.1 = c
    · have hx' : (x.1 == c) = true := by simp [hx]
      rw [List.map_cons, if_pos hx', List.find?_cons_of_pos _ (by simp)]
    · have hx' : (x.1 == c) = false := by simp [hx]
      have hrest : rest.any (fun p => p.1 == c) = true := by
        simpa [List.any_cons, hx'] using h
      rw [List.map_cons, if_neg (by simp [hx]), List.find?_cons_of_neg _ (by simp [hx])]
      exact ih hrest

theorem find_setMap_other (m : List (String × Nat)) (c c' : String) (v : Nat)
    (hne : c' ≠ c) :
    (m.map (fun p => if p.1 == c then (c, v) else p)).find? (fun p => p.1 == c')
      = m.find? (fun p => p.1 == c') := by
  induction m with
  | nil => rfl
  | cons x rest ih =>
    by_cases hx : x.1 = c
    · have l1 : ((c, v) :: rest.map (fun p => if p.1 == c then (c, v) else p)).find?
          (fun p => p.1 == c') = (rest.map (fun p => if p.1 == c then (c, v) else p)).find?
          (fun p => p.1 == c') :=
        List.find?_cons_of_neg _ (by simp [Ne.symm hne])
      have l2 : (x :: rest).find? (fun p => p.1 == c') = rest.find? (fun p => p.1 == c') :=
        List.find?_cons_of_neg _ (by simp [hx, Ne.symm hne])
      rw [List.map_cons, if_pos (by simp [hx]), l1, l2]
      exact ih
    · by_cases hx2 : x.1 = c'
      · rw [List.map_cons, if_neg (by simp [hx]), List.find?_cons_of_pos _ (by simp [hx2]),
          List.find?_cons_of_pos _ (by simp [hx2])]
      · rw [List.map_cons, if_neg (by simp [hx]), List.find?_cons_of_neg _ (by simp [hx2]),
          List.find?_cons_of_neg _ (by simp [hx2])]
        exact ih

theorem ctrGet_ctrSet_self (m : List (String × Nat)) (c : String) (v : Nat) :
    ctrGet (ctrSet m c v) c = v := by
  unfold ctrSet
  split
  case isTrue h =>
    rw [ctrGet, find_setMap_self m c v h]
  case isFalse h =>
    have hnone : m.find? (fun p => p.1 == c) = none := by
      rw [List.find?_eq_none]
      intro x hx hbeq
      exact h (List.any_eq_true.mpr ⟨x, hx, hbeq⟩)
    rw [ctrGet, List.find?_append, hnone, Option.none_or,
      List.find?_cons_of_pos _ (by simp)]

theorem ctrGet_ctrSet_other (m : List (String × Nat)) (c c' : String) (v : Nat)
    (hne : c' ≠ c) : ctrGet (ctrSet m c v) c' = ctrGet m c' := by
  unfold ctrSet
  split
  case isTrue h =>
    rw [ctrGet, find_setMap_other m c c' v hne, ctrGet]
  case isFalse h =>
    rw [ctrGet, List.find?_append, List.find?_cons_of_neg _ (by simp [Ne.symm hne]), ctrGet]
    cases m.find? (fun p => p.1 == c') <;> rfl

theorem ctrGet_ctrSet_max_le (m : List (String × Nat)) (c c' : String) (w : Nat) :
    ctrGet m c' ≤ ctrGet (ctrSet m c (max (ctrGet m c) w)) c' := by
  by_cases hc : c' = c
  · subst hc
    rw [ctrGet_ctrSet_self]
    exact le_max_left _ _
  · rw [ctrGet_ctrSet_other m c c' _ hc]

theorem quorumWrite_acks_length (selfAddr : Addr) (net : Addr → Option Resp)
    (article : Article) (q : List Addr) :
    ∀ (st : ServerState) (acc : List Addr),
      ((q.foldl (quorumWriteStep selfAddr net article) (st, acc)).2).length
        = acc.length + q.countP (ackPred selfAddr net) := by
  induction q with
  | nil => intro st acc; simp
  | cons a rest ih =>
    intro st acc
    rw [List.foldl_cons, List.countP_cons]
    by_cases ha : (a == selfAddr) = true
    · rw [show quorumWriteStep selfAddr net article (st, acc) a
          = ({ st with articles := st.articles ++ [article] }, acc ++ [a]) by
            simp [quorumWriteStep, ha]]
      rw [ih]
      have : ackPred selfAddr net a = true := by simp [ackPred, ha]
      simp [this]
      omega
    · by_cases hn : net a = some Resp.write_ack
      · rw [show quorumWriteStep selfAddr net article (st, acc) a = (st, acc ++ [a]) by
            simp [quorumWriteStep, ha, hn]]
        rw [ih]
        have : ackPred selfAddr net a = true := by simp [ackPred, hn]
        simp [this]
        omega
      · rw [show quorumWriteStep selfAddr net article (st, acc) a = (st, acc) by
            simp [quorumWriteStep, ha, hn]]
        rw [ih]
        have : ackPred selfAddr net a = false := by simp [ackPred, ha, hn]
        simp [this]

theorem storeIds_contains (l : List Article) (x : Nat) :
    (storeIds l).contains x = l.any (fun b => b.id == x) := by
  induction l with
  | nil => rfl
  | cons a rest ih =>
    have hsymm : (x == a.id) = (a.id == x) := by
      by_cases h : x = a.id
      · simp [h]
      · simp [h, Ne.symm h]
    simp only [storeIds, List.map_cons, List.contains_cons, List.any_cons, hsymm]
    rw [← ih]
    rfl

theorem storeIds_append_one (l : List Article) (a : Article) :
    storeIds (l ++ [a]) = storeIds l ++ [a.id] := by
  simp [storeIds]

theorem newArticles_foldl_spec : ∀ (msg : List RArticle) (st : ServerState),
    (msg.foldl newArticlesStep st).articles
      = st.articles ++ (freshSelect (storeIds st.articles) msg).map RArticle.toArticle
    ∧ (msg.foldl newArticlesStep st).client_write_counters
      = applySessionMax st.client_write_counters (freshSelect (storeIds st.articles) msg) := by
  intro msg
  induction msg with
  | nil => intro st; simp [freshSelect, applySessionMax]
  | cons a rest ih =>
    intro st
    rw [List.foldl_cons]
    by_cases h : st.articles.any (fun b => b.id == a.id) = true
    · have hstep : newArticlesStep st a = st := by simp [newArticlesStep, h]
      have hcont : (storeIds st.articles).contains a.id = true := by
        rw [storeIds_contains]; exact h
      rw [hstep, show freshSelect (storeIds st.articles) (a :: rest)
          = freshSelect (storeIds st.articles) rest by
          simp only [freshSelect, hcont, if_true]]
      exact ih st
    · have hcont : (storeIds st.articles).contains a.id = false := by
        rw [storeIds_contains]; simpa using h
      have hsel : freshSelect (storeIds st.articles) (a :: rest)
          = a :: freshSelect (storeIds st.articles ++ [a.id]) rest := by
        simp only [freshSelect, hcont, Bool.false_eq_true, if_false]
      have hstep : newArticlesStep st a
          = { st with articles := st.articles ++ [a.toArticle],
                      client_write_counters :=
                        ctrSet st.client_write_counters a.client_id
                          (max (ctrGet st.client_write_counters a.client_id) a.write_counter) } := by
        simp [newArticlesStep, h]
      rw [hstep]
      obtain ⟨ih1, ih2⟩ := ih _
      refine ⟨?_, ?_⟩
      · rw [ih1]
        simp only [storeIds_append_one, hsel, List.map_cons, List.append_assoc,
          List.cons_append, List.nil_append]
        rfl
      · rw [ih2]
        simp only [storeIds_append_one, hsel]
        rfl

theorem ctrGet_ctrSet_ge (m : List (String × Nat)) (c : String) (v : Nat)
    (h : ctrGet m c ≤ v) (c' : String) : ctrGet m c' ≤ ctrGet (ctrSet m c v) c' := by
  by_cases hc : c' = c
  · subst hc; rw [ctrGet_ctrSet_self]; exact h
  · rw [ctrGet_ctrSet_other m c c' v hc]

theorem applySessionMax_mono : ∀ (L : List RArticle) (m : List (String × Nat)) (c : String),
    ctrGet m c ≤ ctrGet (applySessionMax m L) c := by
  intro L
  induction L with
  | nil => intro m c; exact le_refl _
  | cons a rest ih =>
    intro m c
    calc ctrGet m c
        ≤ ctrGet (ctrSet m a.client_id
            (max (ctrGet m a.client_id) a.write_counter)) c := ctrGet_ctrSet_max_le m _ c _
      _ ≤ ctrGet (applySessionMax (ctrSet m a.client_id
            (max (ctrGet m a.client_id) a.write_counter)) rest) c := ih _ c
      _ = ctrGet (applySessionMax m (a :: rest)) c := rfl

theorem missingAppend_counters_mono : ∀ (arts : List RArticle) (st : ServerState) (c : String),
    ctrGet st.client_write_counters c ≤ ctrGet (missingAppend st arts).client_write_counters c := by
  intro arts
  induction arts with
  | nil => intro st c; exact le_refl _
  | cons a rest ih =>
    intro st c
    have step : missingAppend st (a :: rest) = missingAppend
        { st with articles := st.articles ++ [a.toArticle],
                  client_write_counters := ctrSet st.client_write_counters a.client_id
                    (max (ctrGet st.client_write_counters a.client_id) a.write_counter) }
        rest := rfl
    rw [step]
    exact le_trans
      (ctrGet_ctrSet_max_le st.client_write_counters a.client_id c a.write_counter)
      (ih { st with articles := st.articles ++ [a.toArticle],
                    client_write_counters := ctrSet st.client_write_counters a.client_id
                      (max (ctrGet st.client_write_counters a.client_id) a.write_counter) } c)

theorem get_missing_articles_counters_mono (st : ServerState) (selfAddr : Addr)
    (net : Addr → Option (List RArticle)) (c : String) :
    ctrGet st.client_write_counters c
      ≤ ctrGet (get_missing_articles st selfAddr net).client_write_counters c := by
  rw [get_missing_articles]
  generalize st.server_addresses = addrs
  induction addrs generalizing st with
  | nil => exact le_refl _
  | cons a rest ih =>
    rw [List.foldl_cons]
    by_cases ha : (a == selfAddr) = true
    · simpa [ha] using ih _
    · rcases hn : net a with _ | arts
      · simpa [ha, hn] using ih _
      · refine le_trans (missingAppend_counters_mono arts st c) ?_
        simpa [ha, hn] using ih _

theorem nodup_append_singleton {l : List Nat} {x : Nat} (hnd : l.Nodup) (hx : x ∉ l) :
    (l ++ [x]).Nodup := by
  simp [List.nodup_append, hnd, hx]

theorem not_any_id_not_mem {l : List Article} {x : Nat}
    (h : ¬ l.any (fun b => b.id == x) = true) : x ∉ storeIds l := by
  intro hmem
  obtain ⟨b, hb, hid⟩ := List.mem_map.mp hmem
  exact h (List.any_eq_true.mpr ⟨b, hb, by simp [hid]⟩)

theorem newArticles_foldl_preserves : ∀ (msg : List RArticle) (st : ServerState),
    (storeIds st.articles).Nodup → (∀ b ∈ st.articles, 1 ≤ b.id) → (∀ a ∈ msg, 1 ≤ a.id) →
    (storeIds (msg.foldl newArticlesStep st).articles).Nodup
    ∧ ∀ b ∈ (msg.foldl newArticlesStep st).articles, 1 ≤ b.id := by
  intro msg
  induction msg with
  | nil => intro st hnd hpos _; exact ⟨hnd, hpos⟩
  | cons a rest ih =>
    intro st hnd hpos hmsg
    rw [List.foldl_cons]
    by_cases h : st.articles.any (fun b => b.id == a.id) = true
    · rw [show newArticlesStep st a = st by simp [newArticlesStep, h]]
      exact ih st hnd hpos (fun x hx => hmsg x (List.mem_cons_of_mem a hx))
    · rw [show newArticlesStep st a
          = { st with articles := st.articles ++ [a.toArticle],
                      client_write_counters :=
                        ctrSet st.client_write_counters a.client_id
                          (max (ctrGet st.client_write_counters a.client_id) a.write_counter) }
          by simp [newArticlesStep, h]]
      refine ih _ ?_ ?_ (fun x hx => hmsg x (List.mem_cons_of_mem a hx))
      · rw [storeIds_append_one]
        exact nodup_append_singleton hnd (not_any_id_not_mem h)
      · intro b hb
        rcases List.mem_append.mp hb with hb | hb
        · exact hpos b hb
        · rw [List.mem_singleton.mp hb]
          exact hmsg a (List.mem_cons_self a rest)

theorem keyMem_append (d : List (Nat × Article)) (x : Nat × Article) (k : Nat) :
    keyMem (d ++ [x]) k = (keyMem d k || (x.1 == k)) := by
  simp [keyMem, List.any_append]

theorem foldl_dictInsert_eq_ifAbsent : ∀ (store : List Article) (d : List (Nat × Article)),
    (storeIds store).Nodup → (∀ a ∈ store, keyMem d a.id = false) →
    store.foldl (fun d a => dictInsert d a.id a) d
      = store.foldl (fun d a => dictInsertIfAbsent d a.id a) d := by
  intro store
  induction store with
  | nil => intro d _ _; rfl
  | cons a rest ih =>
    intro d hnd hfresh
    have ha : keyMem d a.id = false := hfresh a (List.mem_cons_self a rest)
    have h1 : dictInsert d a.id a = d ++ [(a.id, a)] := by
      rw [dictInsert, if_neg]
      rw [show (d.any fun p => p.1 == a.id) = keyMem d a.id from rfl, ha]
      simp
    have h2 : dictInsertIfAbsent d a.id a = d ++ [(a.id, a)] := by
      rw [dictInsertIfAbsent, if_neg]
      rw [show (d.any fun p => p.1 == a.id) = keyMem d a.id from rfl, ha]
      simp
    rw [List.foldl_cons, List.foldl_cons, h1, h2]
    refine ih (d ++ [(a.id, a)]) (List.Nodup.of_cons hnd) ?_
    intro b hb
    rw [keyMem_append, hfresh b (List.mem_cons_of_mem a hb)]
    have hne : a.id ≠ b.id := by
      intro hcontra
      have : a.id ∈ storeIds rest := by
        rw [hcontra]
        exact List.mem_map.mpr ⟨b, hb, rfl⟩
      exact (List.nodup_cons.mp hnd).1 this
    simp [hne]

theorem readQuorumVisit_remote (selfAddr : Addr) (store : List Article)
    (net : Addr → Option (List AView)) (d : List (Nat × Article)) (addr : Addr)
    (h : (addr == selfAddr) = false) :
    readQuorumVisit selfAddr store net d addr
      = (visitStore selfAddr store net addr).foldl (fun d a => dictInsertIfAbsent d a.id a) d := by
  rw [readQuorumVisit, visitStore, if_neg (by simp_all), if_neg (by simp_all)]
  cases hn : net addr with
  | none => rfl
  | some arts =>
    rw [Option.getD_some, List.foldl_map]
    rfl

theorem readQuorumVisit_tail (selfAddr : Addr) (store : List Article)
    (net : Addr → Option (List AView)) :
    ∀ (q : List Addr) (d : List (Nat × Article)), selfAddr ∉ q →
    q.foldl (readQuorumVisit selfAddr store net) d
      = q.foldl (fun d addr =>
          (visitStore selfAddr store net addr).foldl (fun d a => dictInsertIfAbsent d a.id a) d) d := by
  intro q
  induction q with
  | nil => intro d _; rfl
  | cons a rest ih =>
    intro d hmem
    have ha : (a == selfAddr) = false := by
      simp only [List.mem_cons, not_or] at hmem
      simp [Ne.symm hmem.1]
    rw [List.foldl_cons, List.foldl_cons, readQuorumVisit_remote selfAddr store net d a ha]
    exact ih _ (by simp only [List.mem_cons, not_or] at hmem; exact hmem.2)

theorem mem_insertByID (x : Summary) : ∀ (l : List Summary) (z : Summary),
    z ∈ insertByID x l → z = x ∨ z ∈ l := by
  intro l
  induction l with
  | nil => intro z hz; simpa [insertByID] using hz
  | cons y ys ih =>
    intro z hz
    rw [insertByID] at hz
    by_cases hc : x.id ≤ y.id
    · rw [if_pos hc] at hz
      rcases List.mem_cons.mp hz with h | h
      · exact Or.inl h
      · exact Or.inr h
    · rw [if_neg hc] at hz
      rcases List.mem_cons.mp hz with h | h
      · exact Or.inr (by rw [h]; exact List.mem_cons_self y ys)
      · rcases ih z h with h' | h'
        · exact Or.inl h'
        · exact Or.inr (List.mem_cons_of_mem y h')

theorem pairwise_insertByID (x : Summary) : ∀ (l : List Summary),
    List.Pairwise (fun a b : Summary => a.id ≤ b.id) l →
    List.Pairwise (fun a b : Summary => a.id ≤ b.id) (insertByID x l) := by
  intro l
  induction l with
  | nil => intro _; simp [insertByID]
  | cons y ys ih =>
    intro hp
    rw [insertByID]
    by_cases hc : x.id ≤ y.id
    · rw [if_pos hc]
      refine List.Pairwise.cons ?_ hp
      intro z hz
      rcases List.mem_cons.mp hz with h | h
      · rw [h]; exact hc
      · exact le_trans hc ((List.pairwise_cons.mp hp).1 z h)
    · rw [if_neg hc]
      have hyx : y.id ≤ x.id := le_of_not_le hc
      refine List.Pairwise.cons ?_ (ih (List.pairwise_cons.mp hp).2)
      intro z hz
      rcases mem_insertByID x ys z hz with h | h
      · rw [h]; exact hyx
      · exact (List.pairwise_cons.mp hp).1 z h

theorem sortByID_pairwise (l : List Summary) :
    List.Pairwise (fun a b : Summary => a.id ≤ b.id) (sortByID l) := by
  induction l with
  | nil => simp [sortByID]
  | cons x xs ih => exact pairwise_insertByID x _ ih

theorem getD_of_lt (l : List Addr) (i : Nat) (d : Addr) (h : i < l.length) :
    l.getD i d = l[i] := by
  rw [List.getD_eq_getElem?_getD, List.getElem?_eq_getElem h]
  rfl

theorem sampleAux_cons (rs : List Nat) (k : Nat) (a : Addr) (pool : List Addr) :
    sampleAux rs (k + 1) (a :: pool)
      = (a :: pool).getD (rs.headD 0 % (a :: pool).length) a
        :: sampleAux rs.tail k ((a :: pool).eraseIdx (rs.headD 0 % (a :: pool).length)) := rfl

theorem sampleAux_length : ∀ (k : Nat) (pool : List Addr) (rs : List Nat),
    (sampleAux rs k pool).length = min k pool.length := by
  intro k
  induction k with
  | zero => intro pool rs; simp [sampleAux]
  | succ k ih =>
    intro pool rs
    cases pool with
    | nil => simp [sampleAux]
    | cons a t =>
      have hi : rs.headD 0 % (a :: t).length < (a :: t).length :=
        Nat.mod_lt _ (by simp)
      rw [sampleAux_cons, List.length_cons, ih, List.length_eraseIdx_of_lt hi]
      simp only [List.length_cons]
      omega

theorem sampleAux_mem : ∀ (k : Nat) (pool : List Addr) (rs : List Nat) (x : Addr),
    x ∈ sampleAux rs k pool → x ∈ pool := by
  intro k
  induction k with
  | zero => intro pool rs x hx; simp [sampleAux] at hx
  | succ k ih =>
    intro pool rs x hx
    cases pool with
    | nil => simp [sampleAux] at hx
    | cons a t =>
      rw [sampleAux_cons] at hx
      have hi : rs.headD 0 % (a :: t).length < (a :: t).length :=
        Nat.mod_lt _ (by simp)
      rcases List.mem_cons.mp hx with hx | hx
      · rw [hx, getD_of_lt _ _ _ hi]
        exact List.getElem_mem hi
      · exact (List.eraseIdx_sublist (a :: t) (rs.headD 0 % (a :: t).length)).subset (ih _ _ x hx)

theorem getElem_not_mem_eraseIdx : ∀ (pool : List Addr), pool.Nodup →
    ∀ (i : Nat) (h : i < pool.length), pool[i] ∉ pool.eraseIdx i := by
  intro pool
  induction pool with
  | nil => intro _ i h; simp at h
  | cons a t ih =>
    intro hnd i h
    cases i with
    | zero =>
      simpa using (List.nodup_cons.mp hnd).1
    | succ i =>
      have hit : i < t.length := by simpa using h
      intro hmem
      rw [List.eraseIdx_cons_succ] at hmem
      have hval : (a :: t)[i + 1] = t[i] := rfl
      rw [hval] at hmem
      rcases List.mem_cons.mp hmem with hmem | hmem
      · exact (List.nodup_cons.mp hnd).1 (hmem ▸ List.getElem_mem hit)
      · exact ih (List.nodup_cons.mp hnd).2 i hit hmem

theorem mem_eraseIdx_of_ne : ∀ (pool : List Addr) (i : Nat), i < pool.length →
    ∀ y : Addr, y ∈ pool → (∀ h : i < pool.length, y ≠ pool[i]) → y ∈ pool.eraseIdx i := by
  intro pool
  induction pool with
  | nil => intro i h; simp at h
  | cons a t ih =>
    intro i h y hy hne
    cases i with
    | zero =>
      rw [List.eraseIdx_cons_zero]
      rcases List.mem_cons.mp hy with hy | hy
      · exact absurd hy (hne h)
      · exact hy
    | succ i =>
      have hit : i < t.length := by simpa using h
      rw [List.eraseIdx_cons_succ]
      rcases List.mem_cons.mp hy with hy | hy
      · exact hy ▸ List.mem_cons_self a _
      · refine List.mem_cons_of_mem a (ih i hit y hy ?_)
        intro h2
        exact hne h

theorem sampleAux_nodup : ∀ (k : Nat) (pool : List Addr) (rs : List Nat),
    pool.Nodup → (sampleAux rs k pool).Nodup := by
  intro k
  induction k with
  | zero => intro pool rs _; simp [sampleAux]
  | succ k ih =>
    intro pool rs hnd
    cases pool with
    | nil => simp [sampleAux]
    | cons a t =>
      have hi : rs.headD 0 % (a :: t).length < (a :: t).length :=
        Nat.mod_lt _ (by simp)
      rw [sampleAux_cons, List.nodup_cons]
      constructor
      · rw [getD_of_lt _ _ _ hi]
        intro hmem
        exact getElem_not_mem_eraseIdx (a :: t) hnd _ hi (sampleAux_mem _ _ _ _ hmem)
      · exact ih _ _ ((List.eraseIdx_sublist (a :: t) _).nodup hnd)

theorem sample_choices_exist_unique : ∀ (l pool : List Addr),
    pool.Nodup → l.Nodup → (∀ x ∈ l, x ∈ pool) → l.length ≤ pool.length →
    ∃ rs : List Nat, CanonicalChoices rs pool.length ∧ rs.length = l.length
      ∧ sampleAux rs l.length pool = l
      ∧ ∀ rs1 : List Nat, CanonicalChoices rs1 pool.length → rs1.length = l.length →
          sampleAux rs1 l.length pool = l → rs1 = rs := by
  intro l
  induction l with
  | nil =>
    intro pool hp _ _ _
    refine ⟨[], trivial, rfl, rfl, ?_⟩
    intro rs1 _ h1 _
    exact List.length_eq_zero.mp h1
  | cons x rest ih =>
    intro pool hp hl hsub hlen
    cases pool with
    | nil => simp at hlen
    | cons hd tl =>
      have hx : x ∈ hd :: tl := hsub x (List.mem_cons_self x rest)
      obtain ⟨i, hi, hgetx⟩ := List.mem_iff_getElem.mp hx
      have hplen : ((hd :: tl).eraseIdx i).length = (hd :: tl).length - 1 :=
        List.length_eraseIdx_of_lt hi
      have hp' : ((hd :: tl).eraseIdx i).Nodup :=
        (List.eraseIdx_sublist (hd :: tl) _).nodup hp
      have hl' : rest.Nodup := (List.nodup_cons.mp hl).2
      have hxrest : x ∉ rest := (List.nodup_cons.mp hl).1
      have hsub' : ∀ y ∈ rest, y ∈ (hd :: tl).eraseIdx i := by
        intro y hy
        refine mem_eraseIdx_of_ne (hd :: tl) _ hi y (hsub y (List.mem_cons_of_mem x hy)) ?_
        intro h2 hcontra
        rw [hgetx] at hcontra
        exact hxrest (hcontra ▸ hy)
      have hlen' : rest.length ≤ ((hd :: tl).eraseIdx i).length := by
        rw [hplen]
        have h2 : rest.length + 1 ≤ tl.length + 1 := by
          simpa [List.length_cons] using hlen
        simp only [List.length_cons]
        omega
      obtain ⟨rs', hcan', hrslen', hsamp', huniq'⟩ := ih _ hp' hl' hsub' hlen'
      have hcan'n : CanonicalChoices rs' ((hd :: tl).length - 1) := by
        rw [← hplen]; exact hcan'
      refine ⟨i :: rs', ⟨hi, hcan'n⟩, by simp [hrslen'], ?_, ?_⟩
      · rw [show (x :: rest).length = rest.length + 1 from rfl, sampleAux_cons]
        have hmod : (i :: rs').headD 0 % (hd :: tl).length = i := by
          simp only [List.headD_cons]
          exact Nat.mod_eq_of_lt hi
        rw [hmod, getD_of_lt _ _ _ hi, hgetx]
        rw [show (i :: rs').tail = rs' from rfl]
        rw [hsamp']
      · intro rs1 hcan1 hlen1 hsamp1
        cases rs1 with
        | nil => simp at hlen1
        | cons r rs1' =>
          obtain ⟨hr, hcan1'⟩ := hcan1
          rw [show (x :: rest).length = rest.length + 1 from rfl, sampleAux_cons] at hsamp1
          have hmod1 : (r :: rs1').headD 0 % (hd :: tl).length = r := by
            simp only [List.headD_cons]
            exact Nat.mod_eq_of_lt hr
          rw [hmod1, getD_of_lt _ _ _ hr,
            show (r :: rs1').tail = rs1' from rfl] at hsamp1
          have hhead : (hd :: tl)[r] = x := (List.cons.injEq _ _ _ _ ▸ hsamp1).1
          have hreq : r = i := by
            refine (@List.Nodup.getElem_inj_iff Addr (hd :: tl) hp r hr i hi).mp ?_
            rw [hhead, hgetx]
          subst hreq
          have htail : sampleAux rs1' rest.length ((hd :: tl).eraseIdx r) = rest :=
            (List.cons.injEq _ _ _ _ ▸ hsamp1).2
          have hcan1'' : CanonicalChoices rs1' ((hd :: tl).eraseIdx r).length := by
            rw [hplen]; exact hcan1'
          have : rs1' = rs' := huniq' rs1' hcan1'' (by simpa using hlen1) htail
          rw [this]

/-! ## Claim theorems -/


/-- C1: In Quorum mode, a `post_article` or `reply_article` handled by the
coordinator answers `post_success` with the allocated id exactly when the
number of collected write acknowledgments (local append plus `write_ack`
replies over the chosen quorum) is at least `NW`; otherwise it answers the
error `"Failed to write to quorum"`. -/
theorem quorum_write_ack_threshold (st : ServerState) (selfAddr : Addr) (q : List Addr)
    (net : Addr → Option Resp) (parent_id : Option Nat) (title content : String) :
    (((handle_post_article_quorum_coord st selfAddr q net title content).2
        = .post_success st.next_article_id)
      ↔ st.NW ≤ q.countP (ackPred selfAddr net))
    ∧ (¬ st.NW ≤ q.countP (ackPred selfAddr net)
      → (handle_post_article_quorum_coord st selfAddr q net title content).2
          = .error "Failed to write to quorum")
    ∧ (((handle_reply_article_quorum_coord st selfAddr q net parent_id title content).2
        = .post_success st.next_article_id)
      ↔ st.NW ≤ q.countP (ackPred selfAddr net))
    ∧ (¬ st.NW ≤ q.countP (ackPred selfAddr net)
      → (handle_reply_article_quorum_coord st selfAddr q net parent_id title content).2
          = .error "Failed to write to quorum") := by
  have hlen₁ := quorumWrite_acks_length selfAddr net
    (mkArticle st.next_article_id none title content) q
    { st with next_article_id := st.next_article_id + 1 } []
  have hlen₂ := quorumWrite_acks_length selfAddr net
    (mkArticle st.next_article_id parent_id title content) q
    { st with next_article_id := st.next_article_id + 1 } []
  simp only [List.length_nil, Nat.zero_add] at hlen₁ hlen₂
  unfold handle_post_article_quorum_coord handle_reply_article_quorum_coord
  simp only [hlen₁, hlen₂]
  by_cases h : st.NW ≤ q.countP (ackPred selfAddr net) <;> simp [h]

/-- C1 witness: with a one-element quorum containing the coordinator itself
and `NW = 1`, the write succeeds with the allocated id `1`. -/
theorem quorum_write_ack_threshold_witness :
    (handle_post_article_quorum_coord ⟨1, [], [], [("s", 1)], 1, 1⟩ ("s", 1) [("s", 1)]
        (fun _ => none) "t" "c").2 = .post_success 1 :=
  (quorum_write_ack_threshold ⟨1, [], [], [("s", 1)], 1, 1⟩ ("s", 1) [("s", 1)]
    (fun _ => none) none "t" "c").1.mpr (by decide)

/-- C3: In Read-Your-Writes mode, when the id allocation RPC to the
coordinator fails (a non-coordinator gets no id), `post_article` and
`reply_article` answer the error `"Failed to get article ID from
coordinator"` and leave the whole server state — article store and
`client_write_counters` included — unchanged. -/
theorem ryw_alloc_failure_keeps_state (st : ServerState) (client_id : String)
    (write_counter : Nat) (parent_id : Option Nat) (title content : String) :
    handle_post_article_read_your_writes st false none client_id write_counter title content
      = (st, .error "Failed to get article ID from coordinator")
    ∧ handle_reply_article_read_your_writes st false none client_id write_counter parent_id
        title content
      = (st, .error "Failed to get article ID from coordinator") :=
  ⟨rfl, rfl⟩

/-- C6 counterexample: with read quorum `[peer, self]`, the peer holding
`(id 1, title "A")` and the local store holding `(id 1, title "B")`, the
handler returns title `"B"` — the local store overwrites the earlier
first occurrence — while a first-occurrence merge returns `"A"`. -/
theorem read_quorum_merge_cex :
    handle_read_articles_quorum ⟨1, [⟨1, none, "B", "y", none, none⟩], [], [], 2, 2⟩ ("s", 1)
        (fun a => if a == ("p", 2) then some [⟨1, none, "A", "x"⟩] else none)
        [("p", 2), ("s", 1)]
      ≠ spec_read_articles_quorum ⟨1, [⟨1, none, "B", "y", none, none⟩], [], [], 2, 2⟩ ("s", 1)
        (fun a => if a == ("p", 2) then some [⟨1, none, "A", "x"⟩] else none)
        [("p", 2), ("s", 1)] := by decide

/-- C6 amended: the returned `articles_list` is the first-occurrence merge
by id of the visited quorum stores, sorted ascending by id, provided the
receiving server's own store has no duplicate ids and the server itself is
not visited after another quorum member (its local dump overwrites
previously merged copies of the same id); the sortedness holds for every
quorum. -/
theorem read_quorum_merge (st : ServerState) (selfAddr : Addr)
    (net : Addr → Option (List AView)) (q : List Addr)
    (hnd : (storeIds st.articles).Nodup) (hself : selfAddr ∉ q.drop 1) :
    handle_read_articles_quorum st selfAddr net q
      = spec_read_articles_quorum st selfAddr net q
    ∧ List.Pairwise (fun x y : Summary => x.id ≤ y.id)
        (respArticles (handle_read_articles_quorum st selfAddr net q)) := by
  have hd : q.foldl (readQuorumVisit selfAddr st.articles net) []
      = specMergeFirst (q.map (visitStore selfAddr st.articles net)) := by
    rw [specMergeFirst, List.foldl_flatten, List.foldl_map]
    cases q with
    | nil => rfl
    | cons a rest =>
      have hrest : selfAddr ∉ rest := by simpa using hself
      rw [List.foldl_cons, List.foldl_cons]
      have hhead : readQuorumVisit selfAddr st.articles net [] a
          = (visitStore selfAddr st.articles net a).foldl
              (fun d a => dictInsertIfAbsent d a.id a) [] := by
        by_cases hb : (a == selfAddr) = true
        · rw [readQuorumVisit, if_pos hb, visitStore, if_pos hb]
          exact foldl_dictInsert_eq_ifAbsent st.articles [] hnd (fun _ _ => rfl)
        · exact readQuorumVisit_remote selfAddr st.articles net [] a (by simpa using hb)
      rw [hhead]
      exact readQuorumVisit_tail selfAddr st.articles net rest _ hrest
  refine ⟨?_, ?_⟩
  · rw [handle_read_articles_quorum, spec_read_articles_quorum, hd]
  · rw [handle_read_articles_quorum]
    exact sortByID_pairwise _

/-- C6 witness: with the server itself visited first and a peer second, the
handler agrees with the first-occurrence merge and the output is sorted. -/
theorem read_quorum_merge_witness :
    handle_read_articles_quorum ⟨1, [⟨2, none, "B", "y", none, none⟩], [], [], 2, 2⟩ ("s", 1)
        (fun a => if a == ("p", 2) then some [⟨1, none, "A", "x"⟩] else none)
        [("s", 1), ("p", 2)]
      = spec_read_articles_quorum ⟨1, [⟨2, none, "B", "y", none, none⟩], [], [], 2, 2⟩ ("s", 1)
        (fun a => if a == ("p", 2) then some [⟨1, none, "A", "x"⟩] else none)
        [("s", 1), ("p", 2)] :=
  (read_quorum_merge ⟨1, [⟨2, none, "B", "y", none, none⟩], [], [], 2, 2⟩ ("s", 1)
    (fun a => if a == ("p", 2) then some [⟨1, none, "A", "x"⟩] else none)
    [("s", 1), ("p", 2)] (by decide) (by decide)).1

/-- C7: `select_quorum(NW)` draws without replacement from the full server
list (the coordinator itself included): when `NW` does not exceed the list
length and the list holds no duplicate address, the result has length
exactly `NW`, repeats no address, and stays inside the server list;
uniformity without replacement holds in that every duplicate-free
`NW`-selection from the list is produced by exactly one canonical choice
stream of the random source. -/
theorem select_quorum_spec (st : ServerState) (rs : List Nat)
    (hnw : st.NW ≤ st.server_addresses.length) (hnd : st.server_addresses.Nodup) :
    (select_quorum st rs st.NW).length = st.NW
    ∧ (select_quorum st rs st.NW).Nodup
    ∧ (∀ x ∈ select_quorum st rs st.NW, x ∈ st.server_addresses)
    ∧ ∀ l : List Addr, l.Nodup → (∀ x ∈ l, x ∈ st.server_addresses) → l.length = st.NW →
        ∃ rs0 : List Nat, CanonicalChoices rs0 st.server_addresses.length
          ∧ rs0.length = st.NW ∧ select_quorum st rs0 st.NW = l
          ∧ ∀ rs1 : List Nat, CanonicalChoices rs1 st.server_addresses.length →
              rs1.length = st.NW → select_quorum st rs1 st.NW = l → rs1 = rs0 := by
  have hmin : min st.NW st.server_addresses.length = st.NW := Nat.min_eq_left hnw
  refine ⟨?_, ?_, ?_, ?_⟩
  · rw [select_quorum, hmin, sampleAux_length]
    exact hmin
  · rw [select_quorum]
    exact sampleAux_nodup _ _ _ hnd
  · intro x hx
    rw [select_quorum] at hx
    exact sampleAux_mem _ _ _ _ hx
  · intro l hlnd hlsub hllen
    obtain ⟨rs0, hc, hlen0, hs0, hu0⟩ := sample_choices_exist_unique l st.server_addresses hnd
      hlnd hlsub (by rw [hllen]; exact hnw)
    refine ⟨rs0, hc, by rw [hlen0, hllen], ?_, ?_⟩
    · rw [select_quorum, hmin, ← hllen]
      exact hs0
    · intro rs1 hc1 hlen1 hs1
      rw [select_quorum, hmin] at hs1
      refine hu0 rs1 hc1 (by rw [hlen1, hllen]) ?_
      rw [hllen]
      exact hs1

/-- C7 witness: with three distinct servers and `NW = 2`, a draw returns
exactly two addresses. -/
theorem select_quorum_spec_witness :
    (select_quorum ⟨1, [], [], [("a", 1), ("b", 2), ("c", 3)], 2, 2⟩ [0, 0] 2).length = 2 :=
  (select_quorum_spec ⟨1, [], [], [("a", 1), ("b", 2), ("c", 3)], 2, 2⟩ [0, 0]
    (by decide) (by decide)).1

/-- C8: posting an article on the coordinator and then fetching the
returned id on the same server yields an `article_content` response with
the same title and content, provided the allocated id is not already taken
in the store (which the allocator's monotonicity guarantees in runs). -/
theorem post_then_read_roundtrip (st : ServerState) (title content : String)
    (hfresh : ∀ a ∈ st.articles, a.id ≠ st.next_article_id) :
    (handle_post_article_sequential_coord st title content).2
      = .post_success st.next_article_id
    ∧ handle_read_article_content_sequential
        (handle_post_article_sequential_coord st title content).1 st.next_article_id
      = .article_content ⟨st.next_article_id, none, title, content⟩ := by
  refine ⟨rfl, ?_⟩
  have hnone : st.articles.find? (fun a => a.id == st.next_article_id) = none := by
    rw [List.find?_eq_none]
    intro a ha hbeq
    exact hfresh a ha (by simpa using hbeq)
  unfold handle_read_article_content_sequential handle_post_article_sequential_coord
  simp [List.find?_append, hnone, mkArticle, Article.toView]

/-- C8 witness: on the initial coordinator state, posting `("T","C")`
returns id `1` and reading id `1` returns title `"T"` and content `"C"`. -/
theorem post_then_read_roundtrip_witness :
    (handle_post_article_sequential_coord ⟨1, [], [], [], 2, 2⟩ "T" "C").2 = .post_success 1
    ∧ handle_read_article_content_sequential
        (handle_post_article_sequential_coord ⟨1, [], [], [], 2, 2⟩ "T" "C").1 1
      = .article_content ⟨1, none, "T", "C"⟩ :=
  post_then_read_roundtrip ⟨1, [], [], [], 2, 2⟩ "T" "C" (by simp)

/-- C5: a Read-Your-Writes server receiving the `new_articles` bulk
propagation appends exactly the payload articles whose id is fresh (with
respect to the store as it grows left to right), and for each appended
article raises that client's session counter to
`max(current, write_counter)`. -/
theorem new_articles_dedup_and_session (st : ServerState) (msg : List RArticle) :
    (handle_new_articles st msg).1.articles
      = st.articles ++ (freshSelect (storeIds st.articles) msg).map RArticle.toArticle
    ∧ (handle_new_articles st msg).1.client_write_counters
      = applySessionMax st.client_write_counters (freshSelect (storeIds st.articles) msg)
    ∧ (handle_new_articles st msg).2 = .ack := by
  obtain ⟨h1, h2⟩ := newArticles_foldl_spec msg st
  exact ⟨h1, h2, rfl⟩

/-- C2 counterexample: a reachable duplicate.  From the empty store, a
`client_connect` gap fetch (`get_missing_articles`) asks every peer for the
missing writes; two peers both hold article 1 and both replies are appended
with no presence check, so the store ends with two articles of id 1. -/
theorem store_id_uniqueness_cex :
    ¬ (storeIds (get_missing_articles ⟨1, [], [], [("s", 1), ("p", 2), ("q", 3)], 2, 2⟩ ("s", 1)
        (fun _ => some [⟨1, none, "t", "c", "cli", 1⟩])).articles).Nodup := by decide

/-- C2 amended: the RYW `new_articles` bulk handler deduplicates by id and
preserves uniqueness and positivity for any payload of positive ids; the
missing-article fetch, Sequential `new_article` receipt and Quorum
`write_article` receipt append unconditionally, so they preserve the store
invariant only when the incoming article's id is positive and not already
in the store. -/
theorem store_id_uniqueness (st : ServerState) (v : AView) (msg : List RArticle)
    (hnd : (storeIds st.articles).Nodup) (hpos : ∀ b ∈ st.articles, 1 ≤ b.id) :
    (v.id ∉ storeIds st.articles → 1 ≤ v.id →
      (storeIds (handle_new_article_sequential st v).1.articles).Nodup
      ∧ ∀ b ∈ (handle_new_article_sequential st v).1.articles, 1 ≤ b.id)
    ∧ (v.id ∉ storeIds st.articles → 1 ≤ v.id →
      (storeIds (handle_write_article st v).1.articles).Nodup
      ∧ ∀ b ∈ (handle_write_article st v).1.articles, 1 ≤ b.id)
    ∧ ((∀ a ∈ msg, 1 ≤ a.id) →
      (storeIds (handle_new_articles st msg).1.articles).Nodup
      ∧ ∀ b ∈ (handle_new_articles st msg).1.articles, 1 ≤ b.id) := by
  have happend : ∀ (pid : Option Nat) (t c : String),
      v.id ∉ storeIds st.articles → 1 ≤ v.id →
      (storeIds (st.articles ++ [mkArticle v.id pid t c])).Nodup
      ∧ ∀ b ∈ st.articles ++ [mkArticle v.id pid t c], 1 ≤ b.id := by
    intro pid t c hfresh hv
    constructor
    · rw [storeIds_append_one]
      exact nodup_append_singleton hnd hfresh
    · intro b hb
      rcases List.mem_append.mp hb with hb | hb
      · exact hpos b hb
      · rw [List.mem_singleton.mp hb]
        exact hv
  exact ⟨happend v.parent_id v.title v.content, happend v.parent_id v.title v.content,
    newArticles_foldl_preserves msg st hnd hpos⟩

/-- C2 witness: appending a fresh positive id through the Sequential
`new_article` receipt keeps the one-article store duplicate-free. -/
theorem store_id_uniqueness_witness :
    (storeIds (handle_new_article_sequential
        ⟨3, [⟨1, none, "t", "c", none, none⟩], [], [], 2, 2⟩ ⟨2, none, "u", "d"⟩).1.articles).Nodup
    ∧ ∀ b ∈ (handle_new_article_sequential
        ⟨3, [⟨1, none, "t", "c", none, none⟩], [], [], 2, 2⟩ ⟨2, none, "u", "d"⟩).1.articles,
      1 ≤ b.id :=
  (store_id_uniqueness ⟨3, [⟨1, none, "t", "c", none, none⟩], [], [], 2, 2⟩ ⟨2, none, "u", "d"⟩
    [] (by decide) (by decide)).1 (by decide) (by decide)

/-- C4 counterexample: a locally handled `post_article` whose
`write_counter` is below the stored session value lowers the counter
(`5` becomes `3`), so the map is not monotonically non-decreasing under
arbitrary `write_counter` values. -/
theorem ryw_counter_decrease_cex :
    ctrGet ((handle_post_article_read_your_writes ⟨1, [], [("cli", 5)], [], 2, 2⟩ false (some 10)
        "cli" 3 "t" "c").1.client_write_counters) "cli"
      < ctrGet [("cli", 5)] "cli" := by decide

/-- C4 amended: session counters start at 0 (absent means 0) and are
non-decreasing across the propagation operations (`new_article` receipt,
`new_articles` bulk receipt, missing-article fetch) for every input; a
locally handled `post_article`/`reply_article` assigns the request's
`write_counter` directly, so across those the map is non-decreasing only
when that value is at least the stored one (as with clients that increment
their counter before each write). -/
theorem ryw_counter_monotonicity (st : ServerState) (a : RArticle) (msg : List RArticle)
    (selfAddr : Addr) (net : Addr → Option (List RArticle)) (is_coordinator : Bool)
    (alloc : Option Nat) (client_id : String) (write_counter : Nat) (parent_id : Option Nat)
    (title content : String)
    (hwc : ctrGet st.client_write_counters client_id ≤ write_counter) :
    (∀ c, ctrGet ([] : List (String × Nat)) c = 0)
    ∧ (∀ c, ctrGet st.client_write_counters c
        ≤ ctrGet ((handle_new_article_read_your_writes st a).1.client_write_counters) c)
    ∧ (∀ c, ctrGet st.client_write_counters c
        ≤ ctrGet ((handle_new_articles st msg).1.client_write_counters) c)
    ∧ (∀ c, ctrGet st.client_write_counters c
        ≤ ctrGet ((get_missing_articles st selfAddr net).client_write_counters) c)
    ∧ (∀ c, ctrGet st.client_write_counters c
        ≤ ctrGet ((handle_post_article_read_your_writes st is_coordinator alloc client_id
            write_counter title content).1.client_write_counters) c)
    ∧ (∀ c, ctrGet st.client_write_counters c
        ≤ ctrGet ((handle_reply_article_read_your_writes st is_coordinator alloc client_id
            write_counter parent_id title content).1.client_write_counters) c) := by
  refine ⟨fun c => rfl, ?_, ?_, ?_, ?_, ?_⟩
  · intro c
    exact ctrGet_ctrSet_max_le st.client_write_counters a.client_id c a.write_counter
  · intro c
    have h := (newArticles_foldl_spec msg st).2
    rw [show (handle_new_articles st msg).1 = msg.foldl newArticlesStep st from rfl, h]
    exact applySessionMax_mono _ _ c
  · intro c
    exact get_missing_articles_counters_mono st selfAddr net c
  · intro c
    cases is_coordinator with
    | true => exact ctrGet_ctrSet_ge st.client_write_counters client_id write_counter hwc c
    | false =>
      cases alloc with
      | none => exact le_refl _
      | some i => exact ctrGet_ctrSet_ge st.client_write_counters client_id write_counter hwc c
  · intro c
    cases is_coordinator with
    | true => exact ctrGet_ctrSet_ge st.client_write_counters client_id write_counter hwc c
    | false =>
      cases alloc with
      | none => exact le_refl _
      | some i => exact ctrGet_ctrSet_ge st.client_write_counters client_id write_counter hwc c

/-- C4 witness: with a stored counter of 1 and an incoming `write_counter`
of 2, a coordinator-local post does not decrease the stored counter. -/
theorem ryw_counter_monotonicity_witness :
    ctrGet [("cli", 1)] "cli"
      ≤ ctrGet ((handle_post_article_read_your_writes ⟨1, [], [("cli", 1)], [], 2, 2⟩ true none
          "cli" 2 "t" "c").1.client_write_counters) "cli" :=
  (ryw_counter_monotonicity ⟨1, [], [("cli", 1)], [], 2, 2⟩ ⟨1, none, "t", "c", "cli", 1⟩ []
    ("s", 1) (fun _ => none) true none "cli" 2 none "t" "c" (by decide)).2.2.2.2.1 "cli"

/-- C9 counterexample: on a fresh coordinator, `reply_article` with
`parent_id = 5` is accepted (`post_success 1`) and stored, yet the stored
reply has `parent_id = 5 ≥ 1 = id`, violating the claimed parent-below-id
invariant. -/
theorem reply_parent_bound_cex :
    (handle_reply_article_sequential_coord ⟨1, [], [], [], 2, 2⟩ (some 5) "r" "c").2
      = .post_success 1
    ∧ (handle_reply_article_sequential_coord ⟨1, [], [], [], 2, 2⟩ (some 5) "r" "c").1.articles
      = [⟨1, some 5, "r", "c", none, none⟩]
    ∧ ¬ (5 : Nat) < 1 := by decide

/-- C9 amended: `reply_article` is accepted and answers `post_success` with
no validation of the parent whatsoever; consequently the parent-below-id
invariant is preserved only for replies whose requested `parent_id` is
below the allocated id (as when the parent is an existing article). -/
theorem reply_parent_unvalidated (st : ServerState) (parent_id : Option Nat)
    (title content client_id : String) (write_counter aid : Nat)
    (hinv : ParentLT st.articles) :
    ((handle_reply_article_sequential_coord st parent_id title content).2
      = .post_success st.next_article_id)
    ∧ ((∀ p, parent_id = some p → p < st.next_article_id) →
        ParentLT (handle_reply_article_sequential_coord st parent_id title content).1.articles)
    ∧ ((handle_reply_article_read_your_writes st false (some aid) client_id write_counter
        parent_id title content).2 = .post_success aid)
    ∧ ((∀ p, parent_id = some p → p < aid) →
        ParentLT (handle_reply_article_read_your_writes st false (some aid) client_id
          write_counter parent_id title content).1.articles) := by
  refine ⟨rfl, ?_, rfl, ?_⟩
  · intro hp a ha p hpp
    rcases List.mem_append.mp ha with ha | ha
    · exact hinv a ha p hpp
    · rw [List.mem_singleton.mp ha] at hpp ⊢
      exact hp p hpp
  · intro hp a ha p hpp
    rcases List.mem_append.mp ha with ha | ha
    · exact hinv a ha p hpp
    · rw [List.mem_singleton.mp ha] at hpp ⊢
      exact hp p hpp

/-- C9 witness: replying to the existing article 1 on a coordinator whose
next id is 2 keeps every stored reply's parent below its id. -/
theorem reply_parent_unvalidated_witness :
    (handle_reply_article_sequential_coord ⟨2, [⟨1, none, "t", "c", none, none⟩], [], [], 2, 2⟩
        (some 1) "r" "c").2 = .post_success 2
    ∧ ParentLT (handle_reply_article_sequential_coord
        ⟨2, [⟨1, none, "t", "c", none, none⟩], [], [], 2, 2⟩ (some 1) "r" "c").1.articles :=
  ⟨(reply_parent_unvalidated ⟨2, [⟨1, none, "t", "c", none, none⟩], [], [], 2, 2⟩ (some 1)
      "r" "c" "cli" 1 7 (by intro a ha p hpp; simp at ha; simp [ha] at hpp)).1,
   (reply_parent_unvalidated ⟨2, [⟨1, none, "t", "c", none, none⟩], [], [], 2, 2⟩ (some 1)
      "r" "c" "cli" 1 7 (by intro a ha p hpp; simp at ha; simp [ha] at hpp)).2.1
     (by intro p hp; simp at hp; subst hp; decide)⟩

/-- C10: a `client_connect` received by a server whose consistency model is
Sequential or Quorum is answered `connect_ack` and the server state is left
unchanged. -/
theorem client_connect_outside_ryw (mode : Mode) (st : ServerState) (selfAddr : Addr)
    (net : Addr → Option (List RArticle)) (client_id : String) (write_counter : Nat)
    (h : mode = .sequential ∨ mode = .quorum) :
    dispatch_client_connect mode st selfAddr net client_id write_counter
      = (st, .connect_ack) := by
  rcases h with h | h <;> subst h <;> rfl

/-- C10 witness: a Quorum-mode server acknowledges a `client_connect`
without touching its state. -/
theorem client_connect_outside_ryw_witness :
    dispatch_client_connect .quorum ⟨1, [], [], [], 2, 2⟩ ("s", 1) (fun _ => none) "cli" 3
      = (⟨1, [], [], [], 2, 2⟩, .connect_ack) :=
  client_connect_outside_ryw .quorum ⟨1, [], [], [], 2, 2⟩ ("s", 1) (fun _ => none) "cli" 3
    (Or.inr rfl)

end BBS
